import Mathlib

/-!
Handle virtualization for the MPI proxy (`contrib/mpi-proxy-split/virtual-ids.h`).

A shallow embedding of the class template `dmtcp_mpi::MpiVirtualization<T>` and of the
table `dmtcp::VirtualIdTable<T>` it owns, followed by theorems about the create / remove /
remap protocol.

Conventions of the embedding.

* A handle of type `T` is a natural number.
* The mutex `_mutex` is not represented: every operation is one atomic step on the state.
* A member function that reads and writes the object is a function from the state before the
  call to the returned value paired with the state after the call.
* A raw table lookup whose precondition is violated is a hard error; it is the value `none`.
  A registry operation that hits such an error returns `none` as its value, paired with the
  state it had reached when the error was raised.
-/

namespace dmtcp

/-- Modelled from the spec: the class `dmtcp::VirtualIdTable<T>` of `virtualidtable.h`, which
is included by `virtual-ids.h` but is not among the sources. The state of one table: the
diagnostic name and the reserved value it was constructed with (the two constructor arguments
seen at `virtual-ids.h:175`), the number of values of the handle type (`idSpace`, handles are
`0 .. idSpace - 1`), the allocation counter, and the set of mapping entries as a list of
pairs (virtual id, real id). -/
structure VirtualIdTable where
  typeStr : String
  base : Nat
  idSpace : Nat
  next : Nat
  entries : List (Nat × Nat)
deriving DecidableEq

namespace VirtualIdTable

/-- Modelled from the spec: the constructor of `dmtcp::VirtualIdTable<T>` (absent from the
sources), called as `_vIdTable(name, (T)0)`: an empty entry set and a counter at its start. -/
def create (typeStr : String) (base idSpace : Nat) : VirtualIdTable :=
  { typeStr := typeStr, base := base, idSpace := idSpace, next := 0, entries := [] }

/-- Modelled from the spec: `VirtualIdTable::getTypeStr` (absent from the sources), the name
used in diagnostics. -/
def getTypeStr (t : VirtualIdTable) : String := t.typeStr

/-- Modelled from the spec: `VirtualIdTable::virtualIdExists` (absent from the sources),
"membership test": some entry has this virtual id. -/
def virtualIdExists (t : VirtualIdTable) (virt : Nat) : Bool :=
  t.entries.any (fun e => e.1 == virt)

/-- Modelled from the spec: `VirtualIdTable::realIdExists` (absent from the sources),
"membership test": some entry has this real id. -/
def realIdExists (t : VirtualIdTable) (real : Nat) : Bool :=
  t.entries.any (fun e => e.2 == real)

/-- Modelled from the spec: `VirtualIdTable::virtualToReal` (absent from the sources), "lookup
by virtual id. Precondition: an entry exists"; a violated precondition is the hard error
`none`. -/
def virtualToReal (t : VirtualIdTable) (virt : Nat) : Option Nat :=
  (t.entries.find? (fun e => e.1 == virt)).map Prod.snd

/-- Modelled from the spec: `VirtualIdTable::realToVirtual` (absent from the sources), "look up
by real id. Precondition: an entry for `real` exists"; a violated precondition is the hard
error `none`. -/
def realToVirtual (t : VirtualIdTable) (real : Nat) : Option Nat :=
  (t.entries.find? (fun e => e.2 == real)).map Prod.fst

/-- Modelled from the spec: `VirtualIdTable::getNewVirtualId` (absent from the sources):
"allocates a virtual id guaranteed not currently present as a key in the table and not equal
to the null sentinel", the sentinel being the reserved value the table was constructed with;
"monotonically increasing counter", so the candidates are taken from the counter upwards;
"returns false only if the id space is exhausted". The result is the returned flag, the value
of the out-parameter after the call (written on success only) and the table after the call. -/
def getNewVirtualId (t : VirtualIdTable) (id : Nat) : Bool × Nat × VirtualIdTable :=
  match (List.range' t.next (t.idSpace - t.next)).find?
      (fun c => c != t.base && !t.virtualIdExists c) with
  | some c => (true, c, { t with next := c + 1 })
  | none => (false, id, t)

/-- Modelled from the spec: `VirtualIdTable::updateMapping` (absent from the sources): "inserts
or overwrites the entry for `virtual`, replacing any prior real id it mapped to". -/
def updateMapping (t : VirtualIdTable) (virt real : Nat) : VirtualIdTable :=
  { t with entries := (virt, real) :: t.entries.filter (fun e => e.1 != virt) }

/-- Modelled from the spec: `VirtualIdTable::erase` (absent from the sources): "removes the
entry for `virtual`, if present; no-op otherwise". -/
def erase (t : VirtualIdTable) (virt : Nat) : VirtualIdTable :=
  { t with entries := t.entries.filter (fun e => e.1 != virt) }

end VirtualIdTable

end dmtcp

namespace dmtcp_mpi

open dmtcp

/-- The data members of `MpiVirtualization<T>` (`virtual-ids.h:181-186`), the mutex apart. -/
structure MpiVirtualization where
  _vIdTable : VirtualIdTable
  _nullId : Nat
deriving DecidableEq

namespace MpiVirtualization

/-- The private constructor `MpiVirtualization(name, nullId)` (`virtual-ids.h:174-179`): the
table is built from `name` and the constant `(T)0`, the sentinel is `nullId`. The size of the
handle type is the extra argument `idSpace`. -/
def new (name : String) (nullId idSpace : Nat) : MpiVirtualization :=
  { _vIdTable := VirtualIdTable.create name 0 idSpace, _nullId := nullId }

/-- The member `virtualToReal` (`virtual-ids.h:83-92`). -/
def virtualToReal (s : MpiVirtualization) (virt : Nat) : Option Nat :=
  if virt = s._nullId then some virt
  else s._vIdTable.virtualToReal virt

/-- The member `realToVirtual` (`virtual-ids.h:94-103`). -/
def realToVirtual (s : MpiVirtualization) (real : Nat) : Option Nat :=
  if real = s._nullId then some real
  else s._vIdTable.realToVirtual real

/-- The member `onCreate` (`virtual-ids.h:108-129`). The lookup of line 120 is guarded by
`realIdExists`; the allocation of line 122 follows it on every path (there is no `else`). -/
def onCreate (s : MpiVirtualization) (real : Nat) : Option Nat × MpiVirtualization :=
  let vId := s._nullId
  if real = s._nullId then (some vId, s)
  else
    match (if s._vIdTable.realIdExists real then s._vIdTable.realToVirtual real
           else some vId) with
    | none => (none, s)
    | some vId =>
      match s._vIdTable.getNewVirtualId vId with
      | (false, vId, t) => (some vId, { s with _vIdTable := t })
      | (true, vId, t) => (some vId, { s with _vIdTable := t.updateMapping vId real })

/-- The member `onRemove` (`virtual-ids.h:134-150`). -/
def onRemove (s : MpiVirtualization) (virt : Nat) : Option Nat × MpiVirtualization :=
  let realId := s._nullId
  if virt = s._nullId then (some realId, s)
  else if s._vIdTable.virtualIdExists virt then
    match s._vIdTable.virtualToReal virt with
    | none => (none, s)
    | some realId => (some realId, { s with _vIdTable := s._vIdTable.erase virt })
  else (some realId, s)

/-- The member `updateMapping` (`virtual-ids.h:154-170`). On the path of an unknown `virt` the
diagnostic of lines 163-165 takes `_vIdTable.realToVirtual(real)` as one of its operands, so
that raw lookup is evaluated before line 166 returns. -/
def updateMapping (s : MpiVirtualization) (virt real : Nat) : Option Nat × MpiVirtualization :=
  let vId := s._nullId
  if virt = s._nullId ∨ real = s._nullId then (some vId, s)
  else if !s._vIdTable.virtualIdExists virt then
    match s._vIdTable.realToVirtual real with
    | none => (none, s)
    | some _ => (some vId, s)
  else (some vId, { s with _vIdTable := s._vIdTable.updateMapping virt real })

end MpiVirtualization

/-- One call of a mutating public operation, with its arguments. -/
inductive Call where
  | onCreate (real : Nat)
  | onRemove (virt : Nat)
  | updateMapping (virt real : Nat)
deriving DecidableEq

/-- The effect of one call on a registry. -/
def Call.apply (s : MpiVirtualization) : Call → Option Nat × MpiVirtualization
  | .onCreate real => s.onCreate real
  | .onRemove virt => s.onRemove virt
  | .updateMapping virt real => s.updateMapping virt real

/-- The state after a finite sequence of calls. A call that ends in a hard error leaves the
state as it was, so the states reached are the same whether or not such calls are kept. -/
def run (s : MpiVirtualization) : List Call → MpiVirtualization
  | [] => s
  | c :: cs => run (c.apply s).2 cs

/-- The mapping of a registry is injective: two distinct registered virtual ids are never
translated to the same real id. -/
def MpiVirtualization.InjectiveMapping (s : MpiVirtualization) : Prop :=
  ∀ v1 v2 : Nat, v1 ≠ v2 →
    s._vIdTable.virtualIdExists v1 = true → s._vIdTable.virtualIdExists v2 = true →
    s.virtualToReal v1 ≠ s.virtualToReal v2

/-- The invariant behind the injectivity of the mapping, on raw lookups: no two virtual ids
are looked up to the same real id, and no virtual id is looked up to the sentinel. -/
def MpiVirtualization.DistinctReals (s : MpiVirtualization) : Prop :=
  (∀ v1 v2 r : Nat, s._vIdTable.virtualToReal v1 = some r →
      s._vIdTable.virtualToReal v2 = some r → v1 = v2) ∧
  (∀ v r : Nat, s._vIdTable.virtualToReal v = some r → r ≠ s._nullId)

/-- A call that keeps the real ids of the table distinct: an `onCreate` of a real id that has
no entry, any `onRemove`, and an `updateMapping (virt, real)` where no entry other than the
one of `virt` holds `real`. -/
def Call.admissible (s : MpiVirtualization) : Call → Bool
  | .onCreate real => !s._vIdTable.realIdExists real
  | .onRemove _ => true
  | .updateMapping virt real => s._vIdTable.entries.all (fun e => e.2 != real || e.1 == virt)

/-- Every call of the sequence is admissible in the state in which it is made. -/
def admissibleRun (s : MpiVirtualization) : List Call → Bool
  | [] => true
  | c :: cs => c.admissible s && admissibleRun (c.apply s).2 cs

/-- The call removes or remaps the entry of the virtual id `v`. -/
def Call.touches (v : Nat) : Call → Bool
  | .onCreate _ => false
  | .onRemove virt => virt == v
  | .updateMapping virt _ => virt == v

/-- The composition `onRemove(onCreate(real))`: the value returned by `onCreate` is handed to
`onRemove` in the state `onCreate` left. -/
def onRemoveOnCreate (s : MpiVirtualization) (real : Nat) : Option Nat × MpiVirtualization :=
  match s.onCreate real with
  | (some v, s1) => s1.onRemove v
  | (none, s1) => (none, s1)

/-- An empty communicator registry with the sentinel 0, as in the end-to-end scenario, over a
handle type of 16 values. -/
def commRegistry : MpiVirtualization := MpiVirtualization.new "MpiComm" 0 16

/-- An empty communicator registry over a handle type of 2 values: one id can be issued. -/
def tinyRegistry : MpiVirtualization := MpiVirtualization.new "MpiComm" 0 2

/-- An empty communicator registry whose sentinel is 1, over a handle type of 16 values. -/
def oneNullRegistry : MpiVirtualization := MpiVirtualization.new "MpiComm" 1 16

/-- The call `onCreate` made on each real id of a list in turn, with no other call in between:
the values returned, in order, and the state after the last call. -/
def createAll (s : MpiVirtualization) : List Nat → List (Option Nat) × MpiVirtualization
  | [] => ([], s)
  | r :: rs =>
    ((s.onCreate r).1 :: (createAll (s.onCreate r).2 rs).1, (createAll (s.onCreate r).2 rs).2)

/-- Every allocation made by `createAll` succeeds. -/
def allAllocate (s : MpiVirtualization) : List Nat → Bool
  | [] => true
  | r :: rs => (s._vIdTable.getNewVirtualId s._nullId).1 && allAllocate (s.onCreate r).2 rs

/-- The four resource categories served by the convenience macros (`virtual-ids.h:13-60`). -/
inductive Category where
  | Communicator
  | Group
  | Datatype
  | Operator
deriving DecidableEq

/-- The declarations of `<mpi.h>` that the macros rely on. The header is not among the
sources, so they are parameters: for each category the identity of its handle type
(`MPI_Comm`, `MPI_Group`, `MPI_Datatype`, `MPI_Op`; two categories get the same number exactly
when their handle types are one and the same C++ type), the number of values of a handle
type, and the null constant of each category (`MPI_COMM_NULL`, `MPI_GROUP_NULL`,
`MPI_DATATYPE_NULL`, `MPI_OP_NULL`). -/
structure MpiHeader where
  handleType : Category → Nat
  idSpace : Nat → Nat
  nullHandle : Category → Nat

/-- The function-local statics `_virTable` of `instance` (`virtual-ids.h:79`), one for each
instantiation of the template: for a handle type, `none` until the first call of `instance`
for that type, the registry object from then on. -/
abbrev Statics := Nat → Option MpiVirtualization

/-- The static member `instance(name, nullId)` of the instantiation for the handle type `T`
(`virtual-ids.h:77-81`): the static is constructed from the arguments by the first call only;
the result is the registry referred to and the statics after the call. -/
def MpiVirtualization.instance' (h : MpiHeader) (T : Nat) (name : String) (nullId : Nat)
    (g : Statics) : MpiVirtualization × Statics :=
  match g T with
  | some reg => (reg, g)
  | none =>
    (MpiVirtualization.new name nullId (h.idSpace T),
      Function.update g T (some (MpiVirtualization.new name nullId (h.idSpace T))))

/-- A mutating member called on the reference returned by `instance(name, nullId)`, as in
`instance(name, nullId).onCreate(id)`: the value returned and the statics after the call, the
static of `T` holding the registry as the member left it. -/
def MpiVirtualization.callOn (h : MpiHeader) (T : Nat) (name : String) (nullId : Nat)
    (op : Call) (g : Statics) : Option Nat × Statics :=
  ((op.apply (MpiVirtualization.instance' h T name nullId g).1).1,
    Function.update (MpiVirtualization.instance' h T name nullId g).2 T
      (some (op.apply (MpiVirtualization.instance' h T name nullId g).1).2))

/-- One later use of the accessor of a handle type: the arguments given to `instance` and the
member called on the result. -/
structure Access where
  name : String
  nullId : Nat
  call : Call

/-- The statics after a sequence of uses of the accessor of the handle type `T`. -/
def callsOn (h : MpiHeader) (T : Nat) (g : Statics) : List Access → Statics
  | [] => g
  | a :: rest => callsOn h T (MpiVirtualization.callOn h T a.name a.nullId a.call g).2 rest

/-- The name each category's macros pass to `instance` (`virtual-ids.h:18-60`). -/
def Category.listName : Category → String
  | .Communicator => "MpiComm"
  | .Group => "MpiGroup"
  | .Datatype => "MpiType"
  | .Operator => "MpiOp"

/-- The accessor of a category, e.g. `MpiCommList::instance("MpiComm", MPI_COMM_NULL)`. -/
def Category.list (h : MpiHeader) (c : Category) (g : Statics) : MpiVirtualization × Statics :=
  MpiVirtualization.instance' h (h.handleType c) c.listName (h.nullHandle c) g

/-- The macros `ADD_NEW_*`, `REMOVE_OLD_*` and `UPDATE_*_MAP` of a category: a mutating
member called through the category's accessor. -/
def Category.call (h : MpiHeader) (c : Category) (op : Call) (g : Statics) :
    Option Nat × Statics :=
  MpiVirtualization.callOn h (h.handleType c) c.listName (h.nullHandle c) op g

/-- A header in which the four handle types are four different types of 16 values each and
every null constant is 0. -/
def distinctHeader : MpiHeader :=
  { handleType := fun c =>
      match c with
      | .Communicator => 0
      | .Group => 1
      | .Datatype => 2
      | .Operator => 3
    idSpace := fun _ => 16
    nullHandle := fun _ => 0 }

/-- The statics before any call of `instance`. -/
def noStatics : Statics := fun _ => none

end dmtcp_mpi

open dmtcp dmtcp_mpi

/-! ## The table: lookups after a mutation -/

theorem find_key_filter_ne (l : List (Nat × Nat)) (v w : Nat) (h : w ≠ v) :
    (l.filter (fun e => e.1 != v)).find? (fun e => e.1 == w)
      = l.find? (fun e => e.1 == w) := by
  induction l with
  | nil => rfl
  | cons a l ih =>
    by_cases ha : a.1 = v
    · have hp : (a.1 == w) = false := by
        simp only [beq_eq_false_iff_ne, ne_eq]; omega
      have hq : (a.1 != v) = false := by
        simp only [bne_eq_false_iff_eq]; exact ha
      simp only [List.filter_cons, List.find?_cons, hp, hq]
      exact ih
    · have hq : (a.1 != v) = true := by
        simp only [bne_iff_ne, ne_eq]; exact ha
      by_cases hw : a.1 = w
      · have hp : (a.1 == w) = true := by
          simp only [beq_iff_eq]; exact hw
        simp only [List.filter_cons, List.find?_cons, hp, hq, if_true]
      · have hp : (a.1 == w) = false := by
          simp only [beq_eq_false_iff_ne, ne_eq]; exact hw
        simp only [List.filter_cons, List.find?_cons, hp, hq, if_true]
        exact ih

theorem find_key_filter_self (l : List (Nat × Nat)) (v : Nat) :
    (l.filter (fun e => e.1 != v)).find? (fun e => e.1 == v) = none := by
  simp [List.find?_eq_none, List.mem_filter]

theorem filter_key_absent (l : List (Nat × Nat)) (v : Nat)
    (h : l.any (fun e => e.1 == v) = false) : l.filter (fun e => e.1 != v) = l := by
  rw [List.filter_eq_self]
  intro a ha
  by_cases hav : a.1 = v
  · have : l.any (fun e => e.1 == v) = true := List.any_eq_true.mpr ⟨a, ha, by simp [hav]⟩
    rw [h] at this
    exact absurd this (by decide)
  · simp [hav]

namespace dmtcp.VirtualIdTable

theorem virtualIdExists_eq_isSome (t : VirtualIdTable) (v : Nat) :
    t.virtualIdExists v = (t.virtualToReal v).isSome := by
  unfold virtualIdExists virtualToReal
  induction t.entries with
  | nil => rfl
  | cons a l ih =>
    by_cases ha : a.1 = v
    · simp [List.find?_cons, ha]
    · have hb : (a.1 == v) = false := by simp only [beq_eq_false_iff_ne, ne_eq]; exact ha
      simp only [List.any_cons, List.find?_cons, hb, Bool.false_or]
      exact ih

theorem virtualToReal_updateMapping (t : VirtualIdTable) (v r w : Nat) :
    (t.updateMapping v r).virtualToReal w
      = if w = v then some r else t.virtualToReal w := by
  unfold updateMapping virtualToReal
  by_cases h : w = v
  · subst h
    simp [List.find?_cons]
  · have hvw : ¬ v = w := fun h' => h h'.symm
    have hp : (v == w) = false := by
      simp only [beq_eq_false_iff_ne, ne_eq]; exact hvw
    simp only [List.find?_cons, hp, find_key_filter_ne _ _ _ h, if_neg h]

theorem virtualToReal_erase (t : VirtualIdTable) (v w : Nat) :
    (t.erase v).virtualToReal w = if w = v then none else t.virtualToReal w := by
  unfold erase virtualToReal
  by_cases h : w = v
  · subst h
    simp [find_key_filter_self]
  · simp [h, find_key_filter_ne _ _ _ h]

theorem virtualIdExists_updateMapping (t : VirtualIdTable) (v r w : Nat) :
    (t.updateMapping v r).virtualIdExists w = (decide (w = v) || t.virtualIdExists w) := by
  rw [virtualIdExists_eq_isSome, virtualIdExists_eq_isSome, virtualToReal_updateMapping]
  by_cases h : w = v <;> simp [h]

theorem virtualIdExists_erase (t : VirtualIdTable) (v w : Nat) :
    (t.erase v).virtualIdExists w = (!decide (w = v) && t.virtualIdExists w) := by
  rw [virtualIdExists_eq_isSome, virtualIdExists_eq_isSome, virtualToReal_erase]
  by_cases h : w = v <;> simp [h]

/-- An entry found by virtual id is an entry of the table. -/
theorem mem_of_virtualToReal (t : VirtualIdTable) (v r : Nat)
    (h : t.virtualToReal v = some r) : (v, r) ∈ t.entries := by
  unfold virtualToReal at h
  cases hf : t.entries.find? (fun e => e.1 == v) with
  | none => rw [hf] at h; cases h
  | some e =>
    rw [hf] at h
    have hk : e.1 = v := by simpa using List.find?_some hf
    have hr : e.2 = r := by simpa using h
    have hm := List.mem_of_find?_eq_some hf
    have : e = (v, r) := Prod.ext hk hr
    rwa [this] at hm

/-- An entry found by real id is an entry of the table. -/
theorem mem_of_realToVirtual (t : VirtualIdTable) (v r : Nat)
    (h : t.realToVirtual r = some v) : (v, r) ∈ t.entries := by
  unfold realToVirtual at h
  cases hf : t.entries.find? (fun e => e.2 == r) with
  | none => rw [hf] at h; cases h
  | some e =>
    rw [hf] at h
    have hk : e.2 = r := by simpa using List.find?_some hf
    have hr : e.1 = v := by simpa using h
    have hm := List.mem_of_find?_eq_some hf
    have : e = (v, r) := Prod.ext hr hk
    rwa [this] at hm

theorem realIdExists_of_mem (t : VirtualIdTable) (v r : Nat) (h : (v, r) ∈ t.entries) :
    t.realIdExists r = true :=
  List.any_eq_true.mpr ⟨(v, r), h, by simp⟩

/-- A real id that has an entry is found by the raw lookup. -/
theorem realToVirtual_isSome (t : VirtualIdTable) (r : Nat) (h : t.realIdExists r = true) :
    ∃ v, t.realToVirtual r = some v := by
  unfold realIdExists at h
  unfold realToVirtual
  obtain ⟨e, he, hp⟩ := List.any_eq_true.mp h
  cases hf : t.entries.find? (fun e => e.2 == r) with
  | none => exact absurd hp (List.find?_eq_none.mp hf e he)
  | some e' => exact ⟨e'.1, rfl⟩

/-- The two outcomes of the allocator: a fresh id that is not the reserved value, the counter
moved past it and the entries untouched; or a failure that changes nothing. -/
theorem getNewVirtualId_cases (t : VirtualIdTable) (id : Nat) :
    (∃ c, t.getNewVirtualId id = (true, c, { t with next := c + 1 }) ∧
        c ≠ t.base ∧ t.virtualIdExists c = false ∧ t.next ≤ c ∧ c < t.idSpace) ∨
      t.getNewVirtualId id = (false, id, t) := by
  unfold getNewVirtualId
  cases hf : (List.range' t.next (t.idSpace - t.next)).find?
      (fun c => c != t.base && !t.virtualIdExists c) with
  | none => exact Or.inr rfl
  | some c =>
    refine Or.inl ⟨c, rfl, ?_⟩
    have hp := List.find?_some hf
    have hm := List.mem_of_find?_eq_some hf
    simp only [Bool.and_eq_true, bne_iff_ne, ne_eq, Bool.not_eq_true'] at hp
    rw [List.mem_range'_1] at hm
    exact ⟨hp.1, hp.2, hm.1, by omega⟩

/-- Whether the allocator succeeds does not depend on the value of the out-parameter. -/
theorem getNewVirtualId_flag (t : VirtualIdTable) (id id' : Nat) :
    (t.getNewVirtualId id).1 = (t.getNewVirtualId id').1 := by
  unfold getNewVirtualId
  cases (List.range' t.next (t.idSpace - t.next)).find?
      (fun c => c != t.base && !t.virtualIdExists c) <;> rfl

end dmtcp.VirtualIdTable

/-! ## The registry: the shape of `onCreate` -/

namespace dmtcp_mpi.MpiVirtualization

/-- When the allocator succeeds, `onCreate` of a non-null real id returns the allocated id,
which was not a key, and stores the pair. -/
theorem onCreate_of_alloc (s : MpiVirtualization) (real : Nat) (hnull : real ≠ s._nullId)
    (halloc : (s._vIdTable.getNewVirtualId s._nullId).1 = true) :
    ∃ c, s.onCreate real = (some c, { s with _vIdTable :=
          ({ s._vIdTable with next := c + 1 } : VirtualIdTable).updateMapping c real }) ∧
      c ≠ s._vIdTable.base ∧ s._vIdTable.virtualIdExists c = false := by
  have key : ∀ id, ∃ c, s._vIdTable.getNewVirtualId id
        = (true, c, { s._vIdTable with next := c + 1 }) ∧
      c ≠ s._vIdTable.base ∧ s._vIdTable.virtualIdExists c = false := by
    intro id
    rcases s._vIdTable.getNewVirtualId_cases id with ⟨c, hc, h1, h2, _, _⟩ | hf
    · exact ⟨c, hc, h1, h2⟩
    · have hflag := s._vIdTable.getNewVirtualId_flag id s._nullId
      rw [hf, halloc] at hflag
      cases hflag
  unfold onCreate
  by_cases hx : s._vIdTable.realIdExists real = true
  · obtain ⟨v, hv⟩ := s._vIdTable.realToVirtual_isSome real hx
    obtain ⟨c, hc, h1, h2⟩ := key v
    refine ⟨c, ?_, h1, h2⟩
    simp only [hnull, if_false, hx, if_true, hv, hc]
  · rw [Bool.not_eq_true] at hx
    obtain ⟨c, hc, h1, h2⟩ := key s._nullId
    refine ⟨c, ?_, h1, h2⟩
    simp only [hnull, if_false, hx, Bool.false_eq_true, hc]

/-- When the allocator fails, `onCreate` leaves the registry as it was. -/
theorem onCreate_of_alloc_failure (s : MpiVirtualization) (real : Nat)
    (hfail : (s._vIdTable.getNewVirtualId s._nullId).1 = false) :
    (s.onCreate real).2 = s := by
  have key : ∀ id, s._vIdTable.getNewVirtualId id = (false, id, s._vIdTable) := by
    intro id
    rcases s._vIdTable.getNewVirtualId_cases id with ⟨c, hc, _⟩ | hf
    · have hflag := s._vIdTable.getNewVirtualId_flag id s._nullId
      rw [hc, hfail] at hflag
      cases hflag
    · exact hf
  unfold onCreate
  by_cases hnull : real = s._nullId
  · simp only [hnull, if_true]
  · by_cases hx : s._vIdTable.realIdExists real = true
    · obtain ⟨v, hv⟩ := s._vIdTable.realToVirtual_isSome real hx
      simp only [hnull, if_false, hx, if_true, hv, key v]
    · rw [Bool.not_eq_true] at hx
      simp only [hnull, if_false, hx, Bool.false_eq_true, key s._nullId]

end dmtcp_mpi.MpiVirtualization

/-! ## The state after one call -/

namespace dmtcp_mpi.MpiVirtualization

/-- The state after `onCreate`: unchanged, or one pair stored under an id that was not a
key. -/
theorem onCreate_state (s : MpiVirtualization) (real : Nat) :
    (s.onCreate real).2 = s ∨
    ∃ c, real ≠ s._nullId ∧ s._vIdTable.virtualIdExists c = false ∧
      (s.onCreate real).2 = { s with _vIdTable :=
          ({ s._vIdTable with next := c + 1 } : VirtualIdTable).updateMapping c real } := by
  by_cases hnull : real = s._nullId
  · left
    unfold onCreate
    simp only [hnull, if_true]
  · cases halloc : (s._vIdTable.getNewVirtualId s._nullId).1 with
    | false => exact Or.inl (onCreate_of_alloc_failure s real halloc)
    | true =>
      obtain ⟨c, hc, _, hfresh⟩ := onCreate_of_alloc s real hnull halloc
      exact Or.inr ⟨c, hnull, hfresh, by rw [hc]⟩

/-- The state after `onRemove`: unchanged, or the entry of `virt` erased. -/
theorem onRemove_state (s : MpiVirtualization) (virt : Nat) :
    (s.onRemove virt).2 = s ∨
    (s.onRemove virt).2 = { s with _vIdTable := s._vIdTable.erase virt } := by
  unfold onRemove
  by_cases hnull : virt = s._nullId
  · left; simp only [hnull, if_true]
  · cases hreg : s._vIdTable.virtualIdExists virt with
    | false => left; simp only [hnull, if_false, Bool.false_eq_true]
    | true =>
      cases hl : s._vIdTable.virtualToReal virt with
      | none => left; simp only [hnull, if_false, if_true, hl]
      | some r => right; simp only [hnull, if_false, if_true, hl]

/-- The state after `updateMapping`: unchanged, or the entry of `virt` overwritten with a
non-null real id. -/
theorem updateMapping_state (s : MpiVirtualization) (virt real : Nat) :
    (s.updateMapping virt real).2 = s ∨
    (real ≠ s._nullId ∧
      (s.updateMapping virt real).2
        = { s with _vIdTable := s._vIdTable.updateMapping virt real }) := by
  unfold updateMapping
  by_cases hnull : virt = s._nullId ∨ real = s._nullId
  · left; simp only [hnull, if_true]
  · have hr : real ≠ s._nullId := fun h => hnull (Or.inr h)
    cases hreg : s._vIdTable.virtualIdExists virt with
    | false =>
      left
      simp only [hnull, if_false, Bool.not_false, if_true]
      cases s._vIdTable.realToVirtual real <;> rfl
    | true =>
      right
      simp only [hnull, if_false, Bool.not_true, Bool.false_eq_true]
      exact ⟨hr, trivial⟩

end dmtcp_mpi.MpiVirtualization

namespace dmtcp_mpi

theorem apply_nullId (s : MpiVirtualization) (c : Call) :
    (c.apply s).2._nullId = s._nullId := by
  cases c with
  | onCreate real =>
    rcases s.onCreate_state real with h | ⟨c, _, _, h⟩ <;> simp only [Call.apply, h]
  | onRemove virt =>
    rcases s.onRemove_state virt with h | h <;> simp only [Call.apply, h]
  | updateMapping virt real =>
    rcases s.updateMapping_state virt real with h | ⟨_, h⟩ <;> simp only [Call.apply, h]

theorem run_nullId (s : MpiVirtualization) (calls : List Call) :
    (run s calls)._nullId = s._nullId := by
  induction calls generalizing s with
  | nil => rfl
  | cons c cs ih => rw [run, ih, apply_nullId]

/-- A call that does not touch the entry of `v` leaves the raw lookup of `v` as it was. -/
theorem apply_keeps_lookup (s : MpiVirtualization) (c : Call) (v r : Nat)
    (hc : c.touches v = false) (hl : s._vIdTable.virtualToReal v = some r) :
    (c.apply s).2._vIdTable.virtualToReal v = some r := by
  cases c with
  | onCreate real =>
    rcases s.onCreate_state real with h | ⟨c, _, hfresh, h⟩
    · simp only [Call.apply, h, hl]
    · have hvc : v ≠ c := by
        intro hvc
        rw [← hvc, VirtualIdTable.virtualIdExists_eq_isSome, hl] at hfresh
        cases hfresh
      simp only [Call.apply, h]
      rw [VirtualIdTable.virtualToReal_updateMapping, if_neg hvc]
      exact hl
  | onRemove virt =>
    have hvv : v ≠ virt := by
      intro h
      simp [Call.touches, h] at hc
    rcases s.onRemove_state virt with h | h
    · simp only [Call.apply, h, hl]
    · simp only [Call.apply, h]
      rw [VirtualIdTable.virtualToReal_erase, if_neg hvv]
      exact hl
  | updateMapping virt real =>
    have hvv : v ≠ virt := by
      intro h
      simp [Call.touches, h] at hc
    rcases s.updateMapping_state virt real with h | ⟨_, h⟩
    · simp only [Call.apply, h, hl]
    · simp only [Call.apply, h]
      rw [VirtualIdTable.virtualToReal_updateMapping, if_neg hvv]
      exact hl

theorem run_keeps_lookup (s : MpiVirtualization) (calls : List Call) (v r : Nat)
    (hc : ∀ c ∈ calls, c.touches v = false) (hl : s._vIdTable.virtualToReal v = some r) :
    (run s calls)._vIdTable.virtualToReal v = some r := by
  induction calls generalizing s with
  | nil => exact hl
  | cons c cs ih =>
    rw [run]
    exact ih _ (fun c' hc' => hc c' (List.mem_cons_of_mem _ hc'))
      (apply_keeps_lookup s c v r (hc c (List.mem_cons_self _ _)) hl)

/-- When `v` is the only virtual id whose entry holds `r`, both round trips succeed. -/
theorem round_trip_of_only (s : MpiVirtualization) (v r : Nat)
    (hv : v ≠ s._nullId) (hr : r ≠ s._nullId)
    (hl : s._vIdTable.virtualToReal v = some r)
    (honly : ∀ w, (w, r) ∈ s._vIdTable.entries → w = v) :
    (s.realToVirtual r).bind s.virtualToReal = some r ∧
    (s.virtualToReal v).bind s.realToVirtual = some v := by
  have hex : s._vIdTable.realIdExists r = true :=
    s._vIdTable.realIdExists_of_mem v r (s._vIdTable.mem_of_virtualToReal v r hl)
  obtain ⟨w, hw⟩ := s._vIdTable.realToVirtual_isSome r hex
  have hwv : w = v := honly w (s._vIdTable.mem_of_realToVirtual w r hw)
  rw [hwv] at hw
  have h1 : s.realToVirtual r = some v := by
    unfold MpiVirtualization.realToVirtual
    rw [if_neg hr, hw]
  have h2 : s.virtualToReal v = some r := by
    unfold MpiVirtualization.virtualToReal
    rw [if_neg hv, hl]
  rw [h1, h2]
  exact ⟨h2, h1⟩

end dmtcp_mpi

/-! ## Distinct real ids along a sequence of calls -/

namespace dmtcp_mpi

/-- Writing `x` under the key `c` keeps the lookups injective and free of the sentinel when no
other key holds `x`. -/
theorem distinct_write (L L1 : Nat → Option Nat) (null c x : Nat)
    (hL1 : ∀ w, L1 w = if w = c then some x else L w)
    (hx : x ≠ null) (honly : ∀ w, L w = some x → w = c)
    (hinj : ∀ v1 v2 r : Nat, L v1 = some r → L v2 = some r → v1 = v2)
    (hnn : ∀ v r : Nat, L v = some r → r ≠ null) :
    (∀ v1 v2 r : Nat, L1 v1 = some r → L1 v2 = some r → v1 = v2) ∧
    (∀ v r : Nat, L1 v = some r → r ≠ null) := by
  constructor
  · intro v1 v2 r h1 h2
    rw [hL1] at h1 h2
    by_cases e1 : v1 = c
    · by_cases e2 : v2 = c
      · rw [e1, e2]
      · rw [if_pos e1] at h1
        rw [if_neg e2] at h2
        exact absurd (honly v2 (h2.trans h1.symm)) e2
    · by_cases e2 : v2 = c
      · rw [if_neg e1] at h1
        rw [if_pos e2] at h2
        exact absurd (honly v1 (h1.trans h2.symm)) e1
      · rw [if_neg e1] at h1
        rw [if_neg e2] at h2
        exact hinj v1 v2 r h1 h2
  · intro v r h
    rw [hL1] at h
    by_cases e : v = c
    · rw [if_pos e] at h
      have : x = r := Option.some.inj h
      rw [← this]
      exact hx
    · rw [if_neg e] at h
      exact hnn v r h

/-- Removing the key `c` keeps the lookups injective and free of the sentinel. -/
theorem distinct_remove (L L1 : Nat → Option Nat) (null c : Nat)
    (hL1 : ∀ w, L1 w = if w = c then none else L w)
    (hinj : ∀ v1 v2 r : Nat, L v1 = some r → L v2 = some r → v1 = v2)
    (hnn : ∀ v r : Nat, L v = some r → r ≠ null) :
    (∀ v1 v2 r : Nat, L1 v1 = some r → L1 v2 = some r → v1 = v2) ∧
    (∀ v r : Nat, L1 v = some r → r ≠ null) := by
  have hsub : ∀ v r : Nat, L1 v = some r → L v = some r := by
    intro v r h
    rw [hL1] at h
    by_cases e : v = c
    · rw [if_pos e] at h; cases h
    · rw [if_neg e] at h; exact h
  exact ⟨fun v1 v2 r h1 h2 => hinj v1 v2 r (hsub v1 r h1) (hsub v2 r h2),
    fun v r h => hnn v r (hsub v r h)⟩

theorem new_distinct (name : String) (nullId idSpace : Nat) :
    (MpiVirtualization.new name nullId idSpace).DistinctReals := by
  constructor
  · intro v1 v2 r h1 _
    cases h1
  · intro v r h
    cases h

theorem apply_distinct (s : MpiVirtualization) (c : Call) (hinv : s.DistinctReals)
    (hadm : c.admissible s = true) : (c.apply s).2.DistinctReals := by
  cases c with
  | onCreate real =>
    rcases s.onCreate_state real with h | ⟨c, hnull, _, h⟩
    · simp only [Call.apply, h]; exact hinv
    · simp only [Call.apply, h]
      have hno : ∀ w, s._vIdTable.virtualToReal w = some real → w = c := by
        intro w hw
        have hex := s._vIdTable.realIdExists_of_mem w real
          (s._vIdTable.mem_of_virtualToReal w real hw)
        simp only [Call.admissible, hex, Bool.not_true] at hadm
        cases hadm
      exact distinct_write s._vIdTable.virtualToReal _ s._nullId c real
        (fun w => VirtualIdTable.virtualToReal_updateMapping _ c real w)
        hnull hno hinv.1 hinv.2
  | onRemove virt =>
    rcases s.onRemove_state virt with h | h
    · simp only [Call.apply, h]; exact hinv
    · simp only [Call.apply, h]
      exact distinct_remove s._vIdTable.virtualToReal _ s._nullId virt
        (fun w => VirtualIdTable.virtualToReal_erase _ virt w) hinv.1 hinv.2
  | updateMapping virt real =>
    rcases s.updateMapping_state virt real with h | ⟨hr, h⟩
    · simp only [Call.apply, h]; exact hinv
    · simp only [Call.apply, h]
      have honly : ∀ w, s._vIdTable.virtualToReal w = some real → w = virt := by
        intro w hw
        have hm := s._vIdTable.mem_of_virtualToReal w real hw
        simp only [Call.admissible, List.all_eq_true] at hadm
        simpa using hadm (w, real) hm
      exact distinct_write s._vIdTable.virtualToReal _ s._nullId virt real
        (fun w => VirtualIdTable.virtualToReal_updateMapping _ virt real w)
        hr honly hinv.1 hinv.2

theorem run_distinct (s : MpiVirtualization) (calls : List Call) (hinv : s.DistinctReals)
    (hadm : admissibleRun s calls = true) : (run s calls).DistinctReals := by
  induction calls generalizing s with
  | nil => exact hinv
  | cons c cs ih =>
    simp only [admissibleRun, Bool.and_eq_true] at hadm
    rw [run]
    exact ih _ (apply_distinct s c hinv hadm.1) hadm.2

theorem injective_of_distinct (s : MpiVirtualization) (hinv : s.DistinctReals) :
    s.InjectiveMapping := by
  intro v1 v2 hne h1 h2 heq
  rw [VirtualIdTable.virtualIdExists_eq_isSome] at h1 h2
  obtain ⟨r1, hr1⟩ := Option.isSome_iff_exists.mp h1
  obtain ⟨r2, hr2⟩ := Option.isSome_iff_exists.mp h2
  unfold MpiVirtualization.virtualToReal at heq
  by_cases e1 : v1 = s._nullId
  · by_cases e2 : v2 = s._nullId
    · exact hne (e1.trans e2.symm)
    · rw [if_pos e1, if_neg e2, hr2] at heq
      have : v1 = r2 := Option.some.inj heq
      exact hinv.2 v2 r2 hr2 (this.symm.trans e1)
  · by_cases e2 : v2 = s._nullId
    · rw [if_neg e1, if_pos e2, hr1] at heq
      have : r1 = v2 := Option.some.inj heq
      exact hinv.2 v1 r1 hr1 (this.trans e2)
    · rw [if_neg e1, if_neg e2, hr1, hr2] at heq
      have : r1 = r2 := Option.some.inj heq
      rw [this] at hr1
      exact hne (hinv.1 v1 v2 r2 hr1 hr2)

end dmtcp_mpi

/-! ## At most one entry per virtual id -/

namespace dmtcp_mpi

theorem keys_nodup_filter (l : List (Nat × Nat)) (v : Nat)
    (h : (l.map Prod.fst).Nodup) :
    ((l.filter (fun e => e.1 != v)).map Prod.fst).Nodup :=
  List.Nodup.sublist ((List.filter_sublist l).map Prod.fst) h

theorem keys_nodup_write (l : List (Nat × Nat)) (v r : Nat)
    (h : (l.map Prod.fst).Nodup) :
    (((v, r) :: l.filter (fun e => e.1 != v)).map Prod.fst).Nodup := by
  rw [List.map_cons, List.nodup_cons]
  refine ⟨?_, keys_nodup_filter l v h⟩
  intro hm
  obtain ⟨e, he, hev⟩ := List.mem_map.mp hm
  have hne := (List.mem_filter.mp he).2
  simp only [bne_iff_ne, ne_eq] at hne
  exact hne hev

/-- With at most one entry per virtual id, every entry is the one its virtual id is looked up
to. -/
theorem find_key_of_mem (l : List (Nat × Nat)) (w r : Nat)
    (h : (l.map Prod.fst).Nodup) (hm : (w, r) ∈ l) :
    l.find? (fun e => e.1 == w) = some (w, r) := by
  induction l with
  | nil => cases hm
  | cons a l ih =>
    rw [List.map_cons, List.nodup_cons] at h
    rcases List.mem_cons.mp hm with e | hin
    · rw [← e]
      simp only [List.find?_cons, beq_self_eq_true]
    · have haw : (a.1 == w) = false := by
        simp only [beq_eq_false_iff_ne, ne_eq]
        intro haw
        exact h.1 (List.mem_map.mpr ⟨(w, r), hin, haw.symm⟩)
      simp only [List.find?_cons, haw]
      exact ih h.2 hin

theorem apply_keys_nodup (s : MpiVirtualization) (c : Call)
    (h : (s._vIdTable.entries.map Prod.fst).Nodup) :
    ((c.apply s).2._vIdTable.entries.map Prod.fst).Nodup := by
  cases c with
  | onCreate real =>
    rcases s.onCreate_state real with e | ⟨c, _, _, e⟩
    · simp only [Call.apply, e]; exact h
    · simp only [Call.apply, e]
      exact keys_nodup_write s._vIdTable.entries c real h
  | onRemove virt =>
    rcases s.onRemove_state virt with e | e
    · simp only [Call.apply, e]; exact h
    · simp only [Call.apply, e]
      exact keys_nodup_filter s._vIdTable.entries virt h
  | updateMapping virt real =>
    rcases s.updateMapping_state virt real with e | ⟨_, e⟩
    · simp only [Call.apply, e]; exact h
    · simp only [Call.apply, e]
      exact keys_nodup_write s._vIdTable.entries virt real h

theorem run_keys_nodup (s : MpiVirtualization) (calls : List Call)
    (h : (s._vIdTable.entries.map Prod.fst).Nodup) :
    ((run s calls)._vIdTable.entries.map Prod.fst).Nodup := by
  induction calls generalizing s with
  | nil => exact h
  | cons c cs ih =>
    rw [run]
    exact ih _ (apply_keys_nodup s c h)

theorem run_append (s : MpiVirtualization) (xs ys : List Call) :
    run s (xs ++ ys) = run (run s xs) ys := by
  induction xs generalizing s with
  | nil => rfl
  | cons c cs ih =>
    show run (c.apply s).2 (cs ++ ys) = run (run (c.apply s).2 cs) ys
    exact ih _

/-- With at most one entry per virtual id, a real id that has an entry is looked up to a
virtual id that is looked up back to it. -/
theorem raw_round_trip (s : MpiVirtualization) (v r : Nat)
    (hwf : (s._vIdTable.entries.map Prod.fst).Nodup)
    (hm : (v, r) ∈ s._vIdTable.entries) :
    ∃ w, s._vIdTable.realToVirtual r = some w ∧ s._vIdTable.virtualToReal w = some r := by
  obtain ⟨w, hw⟩ := s._vIdTable.realToVirtual_isSome r (s._vIdTable.realIdExists_of_mem v r hm)
  refine ⟨w, hw, ?_⟩
  have hin := s._vIdTable.mem_of_realToVirtual w r hw
  unfold VirtualIdTable.virtualToReal
  rw [find_key_of_mem _ w r hwf hin]
  rfl

end dmtcp_mpi

/-! ## Claims about single calls -/

namespace dmtcp_mpi.MpiVirtualization

/-- C2, evaluated on the code: in the registry that holds the single entry 1 -> 100, the call
`onCreate(100)` does not return the registered virtual id 1; it returns the newly allocated
id 2 and the table then holds two entries for the real id 100. -/
theorem onCreate_mapped_real_mints_again :
    (commRegistry.onCreate 100).2._vIdTable.entries = [(1, 100)] ∧
    (commRegistry.onCreate 100).2.realToVirtual 100 = some 1 ∧
    ((commRegistry.onCreate 100).2.onCreate 100).1 = some 2 ∧
    ((commRegistry.onCreate 100).2.onCreate 100).2._vIdTable.entries
      = [(2, 100), (1, 100)] := by
  decide

/-- C3: for a non-null real id that has no entry, when the allocator succeeds, `onCreate`
returns a virtual id `v` that was not a key before the call; the entries after the call are
the entries before plus the one pair `(v, real)`, so `v` is the only id holding `real`, every
lookup other than that of `v` is as before, and every id registered before the call is still
translated to the same real id. -/
theorem onCreate_new_resource (s : MpiVirtualization) (real : Nat)
    (hnull : real ≠ s._nullId) (hnew : s._vIdTable.realIdExists real = false)
    (halloc : (s._vIdTable.getNewVirtualId s._nullId).1 = true) :
    ∃ v, (s.onCreate real).1 = some v ∧
      s._vIdTable.virtualIdExists v = false ∧
      (s.onCreate real).2._vIdTable.entries = (v, real) :: s._vIdTable.entries ∧
      (s.onCreate real).2._nullId = s._nullId ∧
      (∀ w, (w, real) ∈ (s.onCreate real).2._vIdTable.entries → w = v) ∧
      (∀ w, (s.onCreate real).2._vIdTable.virtualToReal w
          = if w = v then some real else s._vIdTable.virtualToReal w) ∧
      (∀ w, s._vIdTable.virtualIdExists w = true →
          (s.onCreate real).2.virtualToReal w = s.virtualToReal w) := by
  obtain ⟨c, hc, _, hfresh⟩ := onCreate_of_alloc s real hnull halloc
  have hent : (s.onCreate real).2._vIdTable.entries = (c, real) :: s._vIdTable.entries := by
    rw [hc]
    show (c, real) :: s._vIdTable.entries.filter (fun e => e.1 != c) = _
    rw [filter_key_absent _ _ hfresh]
  have hlook : ∀ w, (s.onCreate real).2._vIdTable.virtualToReal w
      = if w = c then some real else s._vIdTable.virtualToReal w := by
    intro w
    rw [hc]
    exact VirtualIdTable.virtualToReal_updateMapping _ c real w
  refine ⟨c, by rw [hc], hfresh, hent, by rw [hc], ?_, hlook, ?_⟩
  · intro w hw
    rw [hent] at hw
    rcases List.mem_cons.mp hw with h | h
    · exact congrArg Prod.fst h
    · have := s._vIdTable.realIdExists_of_mem w real h
      rw [hnew] at this
      cases this
  · intro w hw
    have hwc : w ≠ c := by
      intro h
      rw [h, hfresh] at hw
      cases hw
    have hn : (s.onCreate real).2._nullId = s._nullId := by rw [hc]
    unfold virtualToReal
    rw [hn, hlook w, if_neg hwc]

/-- C6: called with the null sentinel, `onCreate`, `onRemove`, `realToVirtual` and
`virtualToReal` return the sentinel, and `updateMapping` returns it when either argument is
the sentinel. The registry is returned as it was, and since this holds for every table `t`
the result does not depend on the table. -/
theorem null_short_circuit (t : VirtualIdTable) (nullId v r : Nat) :
    (MpiVirtualization.mk t nullId).onCreate nullId
        = (some nullId, MpiVirtualization.mk t nullId) ∧
    (MpiVirtualization.mk t nullId).onRemove nullId
        = (some nullId, MpiVirtualization.mk t nullId) ∧
    (MpiVirtualization.mk t nullId).realToVirtual nullId = some nullId ∧
    (MpiVirtualization.mk t nullId).virtualToReal nullId = some nullId ∧
    (MpiVirtualization.mk t nullId).updateMapping nullId r
        = (some nullId, MpiVirtualization.mk t nullId) ∧
    (MpiVirtualization.mk t nullId).updateMapping v nullId
        = (some nullId, MpiVirtualization.mk t nullId) := by
  refine ⟨?_, ?_, ?_, ?_, ?_, ?_⟩
  · simp only [onCreate, if_true]
  · simp only [onRemove, if_true]
  · simp only [realToVirtual, if_true]
  · simp only [virtualToReal, if_true]
  · simp only [updateMapping, true_or, if_true]
  · simp only [updateMapping, or_true, if_true]

/-- C7: for a registered non-null virtual id `v` and a non-null real id `r`, after
`updateMapping(v, r)` the lookup `virtualToReal(v)` returns `r`, `v` is still registered, the
translation of every other virtual id is as before, and the set of registered virtual ids is
the same (no entry is added or removed). -/
theorem updateMapping_remap (s : MpiVirtualization) (v r : Nat)
    (hv : v ≠ s._nullId) (hr : r ≠ s._nullId)
    (hreg : s._vIdTable.virtualIdExists v = true) :
    (s.updateMapping v r).2.virtualToReal v = some r ∧
    (s.updateMapping v r).2._vIdTable.virtualIdExists v = true ∧
    (∀ w, w ≠ v → (s.updateMapping v r).2.virtualToReal w = s.virtualToReal w) ∧
    (∀ w, (s.updateMapping v r).2._vIdTable.virtualIdExists w
        = s._vIdTable.virtualIdExists w) := by
  have hstep : s.updateMapping v r
      = (some s._nullId, { s with _vIdTable := s._vIdTable.updateMapping v r }) := by
    unfold updateMapping
    simp only [hv, hr, or_self, if_false, hreg, Bool.not_true, Bool.false_eq_true]
  rw [hstep]
  refine ⟨?_, ?_, ?_, ?_⟩
  · unfold virtualToReal
    simp only [hv, if_false, VirtualIdTable.virtualToReal_updateMapping, if_true]
  · simp only [VirtualIdTable.virtualIdExists_updateMapping, decide_True, Bool.true_or]
  · intro w hw
    unfold virtualToReal
    simp only [VirtualIdTable.virtualToReal_updateMapping, if_neg hw]
  · intro w
    simp only [VirtualIdTable.virtualIdExists_updateMapping]
    by_cases hw : w = v
    · rw [hw, hreg]; simp
    · simp [hw]

/-- C8: for a non-null virtual id `v` that is not registered and a non-null real id `r`,
`updateMapping(v, r)` leaves the whole registry state as it was (no entry is created), and
`virtualIdExists(v)` is still false afterwards. -/
theorem updateMapping_unregistered_unchanged (s : MpiVirtualization) (v r : Nat)
    (hv : v ≠ s._nullId) (hr : r ≠ s._nullId)
    (hunreg : s._vIdTable.virtualIdExists v = false) :
    (s.updateMapping v r).2 = s ∧
    (s.updateMapping v r).2._vIdTable.virtualIdExists v = false := by
  have hstate : (s.updateMapping v r).2 = s := by
    unfold updateMapping
    simp only [hv, hr, or_self, if_false, hunreg, Bool.not_false, if_true]
    cases s._vIdTable.realToVirtual r <;> rfl
  exact ⟨hstate, by rw [hstate]; exact hunreg⟩

/-- C9, evaluated on the code: in the empty registry, `updateMapping(5, 7)` (virtual id 5 not
registered, real id 7 without an entry) does not return the sentinel: the raw lookup
`realToVirtual(7)` made for the diagnostic fails, which is the hard error `none`. -/
theorem updateMapping_unknown_hits_raw_lookup :
    commRegistry._vIdTable.virtualIdExists 5 = false ∧
    commRegistry._vIdTable.realIdExists 7 = false ∧
    commRegistry._vIdTable.realToVirtual 7 = none ∧
    commRegistry.updateMapping 5 7 = (none, commRegistry) := by
  decide

/-- C10, evaluated on the code: in the registry that holds the single entry 1 -> 100,
`updateMapping(9, 200)` returns no value at all (the hard error `none` of the diagnostic's
raw lookup), so the value returned is not the sentinel 0. -/
theorem updateMapping_value_not_null :
    ((commRegistry.onCreate 100).2.updateMapping 9 200).1 = none ∧
    ((commRegistry.onCreate 100).2.updateMapping 9 200).1
      ≠ some (commRegistry.onCreate 100).2._nullId := by
  decide

end dmtcp_mpi.MpiVirtualization

namespace dmtcp_mpi

/-! ## Claims about sequences of calls -/

/-- C1, as stated, fails: after `onCreate(10)`, `onCreate(20)` and `updateMapping(2, 10)` on
an empty registry the distinct registered virtual ids 1 and 2 are both translated to the real
id 10. -/
theorem bijection_broken_by_remap :
    ¬ (run commRegistry
        [Call.onCreate 10, Call.onCreate 20, Call.updateMapping 2 10]).InjectiveMapping := by
  intro h
  exact h 1 2 (by decide) (by decide) (by decide) (by decide)

/-- C1, amended: in every state reached from an empty registry by a finite sequence of calls
in which every `onCreate` is given a real id that has no entry at that moment and every
`updateMapping(v, r)` is given a real id `r` that no entry other than the one of `v` holds at
that moment (`onRemove` is unrestricted), two distinct registered virtual ids are never
translated to the same real id. -/
theorem bijection_of_admissible_calls (name : String) (nullId idSpace : Nat)
    (calls : List Call)
    (hadm : admissibleRun (MpiVirtualization.new name nullId idSpace) calls = true) :
    (run (MpiVirtualization.new name nullId idSpace) calls).InjectiveMapping :=
  injective_of_distinct _ (run_distinct _ calls (new_distinct name nullId idSpace) hadm)

theorem bijection_of_admissible_calls_witness :
    (run (MpiVirtualization.new "MpiComm" 0 16)
      [Call.onCreate 10, Call.onCreate 20, Call.updateMapping 2 30, Call.onRemove 1,
       Call.onCreate 10, Call.updateMapping 3 10]).InjectiveMapping :=
  bijection_of_admissible_calls "MpiComm" 0 16
    [Call.onCreate 10, Call.onCreate 20, Call.updateMapping 2 30, Call.onRemove 1,
     Call.onCreate 10, Call.updateMapping 3 10] (by decide)

/-- C4, as stated, fails: `onCreate(100)` on an empty registry returns 1, and after
`onCreate(300)` and `updateMapping(2, 100)`, which leave the entry of 1 alone, the round trip
from the virtual id 1 gives `realToVirtual(virtualToReal(1)) = 2`. -/
theorem round_trip_broken_by_remap :
    (commRegistry.onCreate 100).1 = some 1 ∧
    (run (commRegistry.onCreate 100).2
        [Call.onCreate 300, Call.updateMapping 2 100]).virtualToReal 1 = some 100 ∧
    (run (commRegistry.onCreate 100).2
        [Call.onCreate 300, Call.updateMapping 2 100]).realToVirtual 100 = some 2 ∧
    ((run (commRegistry.onCreate 100).2
        [Call.onCreate 300, Call.updateMapping 2 100]).virtualToReal 1).bind
      (run (commRegistry.onCreate 100).2
        [Call.onCreate 300, Call.updateMapping 2 100]).realToVirtual ≠ some 1 := by
  decide

/-- C4, amended: take any state reached from an empty registry, let `onCreate(r)` with `r`
non-null and a successful allocation return a non-null virtual id `v` there, and let any
finite sequence of calls follow in which no `onRemove(v)` and no `updateMapping(v, _)`
occurs. In the state reached, `virtualToReal(realToVirtual(r)) = r` as soon as
`realToVirtual(r)` is not the sentinel, and `realToVirtual(virtualToReal(v)) = v` as soon as
no entry other than the one of `v` holds `r`. -/
theorem round_trip_of_live_entry (name : String) (nullId idSpace : Nat)
    (pre calls : List Call) (r v : Nat)
    (hr : r ≠ nullId) (hv : v ≠ nullId)
    (halloc : ((run (MpiVirtualization.new name nullId idSpace)
        pre)._vIdTable.getNewVirtualId nullId).1 = true)
    (hcreate : ((run (MpiVirtualization.new name nullId idSpace) pre).onCreate r).1 = some v)
    (hkeep : ∀ c ∈ calls, c.touches v = false) :
    ((run (MpiVirtualization.new name nullId idSpace)
          (pre ++ Call.onCreate r :: calls)).realToVirtual r ≠ some nullId →
      ((run (MpiVirtualization.new name nullId idSpace)
          (pre ++ Call.onCreate r :: calls)).realToVirtual r).bind
        (run (MpiVirtualization.new name nullId idSpace)
          (pre ++ Call.onCreate r :: calls)).virtualToReal = some r) ∧
    ((∀ w, (w, r) ∈ (run (MpiVirtualization.new name nullId idSpace)
          (pre ++ Call.onCreate r :: calls))._vIdTable.entries → w = v) →
      ((run (MpiVirtualization.new name nullId idSpace)
          (pre ++ Call.onCreate r :: calls)).virtualToReal v).bind
        (run (MpiVirtualization.new name nullId idSpace)
          (pre ++ Call.onCreate r :: calls)).realToVirtual = some v) := by
  have hn1 : (run (MpiVirtualization.new name nullId idSpace) pre)._nullId = nullId :=
    run_nullId _ pre
  have hrun : run (MpiVirtualization.new name nullId idSpace) (pre ++ Call.onCreate r :: calls)
      = run ((run (MpiVirtualization.new name nullId idSpace) pre).onCreate r).2 calls := by
    rw [run_append]
    rfl
  have hn : (run (MpiVirtualization.new name nullId idSpace)
      (pre ++ Call.onCreate r :: calls))._nullId = nullId := run_nullId _ _
  have hwf : ((run (MpiVirtualization.new name nullId idSpace)
      (pre ++ Call.onCreate r :: calls))._vIdTable.entries.map Prod.fst).Nodup :=
    run_keys_nodup _ _ List.nodup_nil
  obtain ⟨c, hc, _, _⟩ := MpiVirtualization.onCreate_of_alloc
    (run (MpiVirtualization.new name nullId idSpace) pre) r
    (by rw [hn1]; exact hr) (by rw [hn1]; exact halloc)
  have hcv : c = v := by
    rw [hc] at hcreate
    exact Option.some.inj hcreate
  have hl0 : ((run (MpiVirtualization.new name nullId idSpace) pre).onCreate
      r).2._vIdTable.virtualToReal v = some r := by
    rw [hc, ← hcv]
    simp only [VirtualIdTable.virtualToReal_updateMapping, if_true]
  have hl : (run (MpiVirtualization.new name nullId idSpace)
      (pre ++ Call.onCreate r :: calls))._vIdTable.virtualToReal v = some r := by
    rw [hrun]
    exact run_keeps_lookup _ calls v r hkeep hl0
  constructor
  · intro hnot
    obtain ⟨w, hw, hback⟩ := raw_round_trip _ v r hwf
      (VirtualIdTable.mem_of_virtualToReal _ v r hl)
    have h1 : (run (MpiVirtualization.new name nullId idSpace)
        (pre ++ Call.onCreate r :: calls)).realToVirtual r = some w := by
      unfold MpiVirtualization.realToVirtual
      rw [hn, if_neg hr, hw]
    have hwn : w ≠ nullId := by
      intro h
      rw [h1, h] at hnot
      exact hnot rfl
    rw [h1]
    show (run (MpiVirtualization.new name nullId idSpace)
        (pre ++ Call.onCreate r :: calls)).virtualToReal w = some r
    unfold MpiVirtualization.virtualToReal
    rw [hn, if_neg hwn, hback]
  · intro honly
    exact (round_trip_of_only _ v r (by rw [hn]; exact hv) (by rw [hn]; exact hr)
      hl honly).2

theorem round_trip_of_live_entry_witness :
    ((run (MpiVirtualization.new "MpiComm" 0 16)
          ([Call.onCreate 50, Call.onRemove 1] ++ Call.onCreate 100 ::
            [Call.onCreate 300, Call.updateMapping 3 400, Call.onRemove 3])).realToVirtual
            100).bind
        (run (MpiVirtualization.new "MpiComm" 0 16)
          ([Call.onCreate 50, Call.onRemove 1] ++ Call.onCreate 100 ::
            [Call.onCreate 300, Call.updateMapping 3 400, Call.onRemove 3])).virtualToReal
        = some 100 ∧
    ((run (MpiVirtualization.new "MpiComm" 0 16)
          ([Call.onCreate 50, Call.onRemove 1] ++ Call.onCreate 100 ::
            [Call.onCreate 300, Call.updateMapping 3 400, Call.onRemove 3])).virtualToReal
            2).bind
        (run (MpiVirtualization.new "MpiComm" 0 16)
          ([Call.onCreate 50, Call.onRemove 1] ++ Call.onCreate 100 ::
            [Call.onCreate 300, Call.updateMapping 3 400, Call.onRemove 3])).realToVirtual
        = some 2 :=
  have h := round_trip_of_live_entry "MpiComm" 0 16 [Call.onCreate 50, Call.onRemove 1]
    [Call.onCreate 300, Call.updateMapping 3 400, Call.onRemove 3] 100 2
    (by decide) (by decide) (by decide) (by decide) (by decide)
  ⟨h.1 (by decide), h.2 (fun w hw => by
    have he : (run (MpiVirtualization.new "MpiComm" 0 16)
        ([Call.onCreate 50, Call.onRemove 1] ++ Call.onCreate 100 ::
          [Call.onCreate 300, Call.updateMapping 3 400,
            Call.onRemove 3]))._vIdTable.entries = [(2, 100)] := by decide
    rw [he] at hw
    simpa using hw)⟩

/-- C5, as stated, fails: in the registry over a handle type of 2 values that already holds
1 -> 5 the allocator is exhausted, `onCreate(6)` returns the sentinel 0, and
`onRemove(onCreate(6))` returns 0, not 6. -/
theorem pairing_broken_by_exhaustion :
    (6 : Nat) ≠ (tinyRegistry.onCreate 5).2._nullId ∧
    ((tinyRegistry.onCreate 5).2._vIdTable.getNewVirtualId
        (tinyRegistry.onCreate 5).2._nullId).1 = false ∧
    ((tinyRegistry.onCreate 5).2.onCreate 6).1 = some 0 ∧
    (onRemoveOnCreate (tinyRegistry.onCreate 5).2 6).1 = some 0 ∧
    (onRemoveOnCreate (tinyRegistry.onCreate 5).2 6).1 ≠ some 6 := by
  decide

/-- C5, amended: for every registry state and every non-null real id `r` for which the
allocation made by `onCreate(r)` succeeds and the virtual id it returns is not the sentinel,
`onRemove(onCreate(r))` returns `r`, and after the two calls `virtualIdExists` is false for
the virtual id that `onCreate` returned. -/
theorem pairing_of_successful_create (s : MpiVirtualization) (r : Nat)
    (hr : r ≠ s._nullId)
    (halloc : (s._vIdTable.getNewVirtualId s._nullId).1 = true)
    (hv : (s.onCreate r).1 ≠ some s._nullId) :
    ∃ v, (s.onCreate r).1 = some v ∧
      (onRemoveOnCreate s r).1 = some r ∧
      (onRemoveOnCreate s r).2._vIdTable.virtualIdExists v = false := by
  obtain ⟨c, hc, _, _⟩ := MpiVirtualization.onCreate_of_alloc s r hr halloc
  have hcn : c ≠ s._nullId := by
    intro h
    rw [hc, h] at hv
    exact hv rfl
  have hex : (({ s._vIdTable with next := c + 1 } : VirtualIdTable).updateMapping c
      r).virtualIdExists c = true := by
    simp only [VirtualIdTable.virtualIdExists_updateMapping, decide_True, Bool.true_or]
  have hlk : (({ s._vIdTable with next := c + 1 } : VirtualIdTable).updateMapping c
      r).virtualToReal c = some r := by
    simp only [VirtualIdTable.virtualToReal_updateMapping, if_true]
  have hrm : onRemoveOnCreate s r = (some r, { s with _vIdTable :=
      (({ s._vIdTable with next := c + 1 } : VirtualIdTable).updateMapping c r).erase c }) := by
    unfold onRemoveOnCreate
    rw [hc]
    simp only [MpiVirtualization.onRemove, hcn, if_false, hex, if_true, hlk]
  refine ⟨c, by rw [hc], by rw [hrm], ?_⟩
  rw [hrm]
  simp only [VirtualIdTable.virtualIdExists_erase, decide_True, Bool.not_true, Bool.false_and]

theorem pairing_of_successful_create_witness :
    ∃ v, ((commRegistry.onCreate 100).2.onCreate 200).1 = some v ∧
      (onRemoveOnCreate (commRegistry.onCreate 100).2 200).1 = some 200 ∧
      (onRemoveOnCreate (commRegistry.onCreate 100).2 200).2._vIdTable.virtualIdExists v
        = false :=
  pairing_of_successful_create (commRegistry.onCreate 100).2 200
    (by decide) (by decide) (by decide)

end dmtcp_mpi

/-! ## Instances of the single-call claims -/

namespace dmtcp_mpi.MpiVirtualization

theorem onCreate_new_resource_witness :
    ∃ v, ((commRegistry.onCreate 100).2.onCreate 200).1 = some v ∧
      (commRegistry.onCreate 100).2._vIdTable.virtualIdExists v = false ∧
      ((commRegistry.onCreate 100).2.onCreate 200).2._vIdTable.entries
        = (v, 200) :: (commRegistry.onCreate 100).2._vIdTable.entries :=
  match onCreate_new_resource (commRegistry.onCreate 100).2 200
      (by decide) (by decide) (by decide) with
  | ⟨v, h1, h2, h3, _⟩ => ⟨v, h1, h2, h3⟩

theorem updateMapping_remap_witness :
    ((commRegistry.onCreate 100).2.updateMapping 1 200).2.virtualToReal 1 = some 200 ∧
    ((commRegistry.onCreate 100).2.updateMapping 1 200).2._vIdTable.virtualIdExists 1
      = true :=
  match updateMapping_remap (commRegistry.onCreate 100).2 1 200
      (by decide) (by decide) (by decide) with
  | ⟨h1, h2, _⟩ => ⟨h1, h2⟩

theorem updateMapping_unregistered_unchanged_witness :
    ((commRegistry.onCreate 100).2.updateMapping 9 100).2 = (commRegistry.onCreate 100).2 ∧
    ((commRegistry.onCreate 100).2.updateMapping 9 100).2._vIdTable.virtualIdExists 9
      = false :=
  updateMapping_unregistered_unchanged (commRegistry.onCreate 100).2 9 100
    (by decide) (by decide) (by decide)

end dmtcp_mpi.MpiVirtualization

/-! ## Allocation, failure and removal -/

namespace dmtcp_mpi.MpiVirtualization

/-- When the reserved value of the table is the sentinel of the registry, a successful
`onCreate` of a non-null real id returns a virtual id that is not the sentinel. -/
theorem onCreate_ne_null_of_base (s : MpiVirtualization) (real : Nat)
    (hbase : s._vIdTable.base = s._nullId) (hnull : real ≠ s._nullId)
    (halloc : (s._vIdTable.getNewVirtualId s._nullId).1 = true) :
    (s.onCreate real).1 ≠ some s._nullId := by
  obtain ⟨c, hc, hcb, _⟩ := onCreate_of_alloc s real hnull halloc
  rw [hc, ← hbase]
  intro h
  exact hcb (Option.some.inj h)

/-- C11, evaluated on the code: in the empty registry constructed with the sentinel 1 the
allocator succeeds for `onCreate(5)`, the call stores the entry 1 -> 5 and returns the virtual
id 1, which is the sentinel. -/
theorem onCreate_returns_sentinel :
    (5 : Nat) ≠ oneNullRegistry._nullId ∧
    (oneNullRegistry._vIdTable.getNewVirtualId oneNullRegistry._nullId).1 = true ∧
    (oneNullRegistry.onCreate 5).1 = some oneNullRegistry._nullId ∧
    (oneNullRegistry.onCreate 5).2._vIdTable.entries = [(1, 5)] := by
  decide

/-- C12, evaluated on the code: the state reached from the empty registry with the sentinel 1
by `onCreate(5)` holds the entry 1 -> 5, whose virtual id is the sentinel. -/
theorem sentinel_stored_as_virtual_id :
    (run oneNullRegistry [Call.onCreate 5])._nullId = 1 ∧
    (1, 5) ∈ (run oneNullRegistry [Call.onCreate 5])._vIdTable.entries ∧
    (run oneNullRegistry [Call.onCreate 5])._vIdTable.virtualIdExists
      (run oneNullRegistry [Call.onCreate 5])._nullId = true := by
  decide

/-- C13, as stated, fails: in the registry over a handle type of 2 values that holds 1 -> 5 the
allocator is exhausted, and `onCreate(5)`, whose real id has an entry, returns the registered
virtual id 1, not the sentinel 0. -/
theorem alloc_failure_returns_registered_id :
    (5 : Nat) ≠ (tinyRegistry.onCreate 5).2._nullId ∧
    (tinyRegistry.onCreate 5).2._vIdTable.realIdExists 5 = true ∧
    ((tinyRegistry.onCreate 5).2._vIdTable.getNewVirtualId
        (tinyRegistry.onCreate 5).2._nullId).1 = false ∧
    ((tinyRegistry.onCreate 5).2.onCreate 5).1 = some 1 ∧
    ((tinyRegistry.onCreate 5).2.onCreate 5).1 ≠ some (tinyRegistry.onCreate 5).2._nullId := by
  decide

/-- C13, amended: for every registry state and every non-null real id `r`, if
`getNewVirtualId` returns false then `onCreate(r)` leaves the whole registry state unchanged;
it returns the sentinel when `r` has no entry, and the virtual id that `realToVirtual(r)`
finds, which is registered for `r`, when `r` has an entry. -/
theorem onCreate_alloc_failure (s : MpiVirtualization) (r : Nat)
    (hr : r ≠ s._nullId)
    (hfail : (s._vIdTable.getNewVirtualId s._nullId).1 = false) :
    (s.onCreate r).2 = s ∧
    (s._vIdTable.realIdExists r = false → (s.onCreate r).1 = some s._nullId) ∧
    (s._vIdTable.realIdExists r = true →
      ∃ v, (s.onCreate r).1 = some v ∧ s._vIdTable.realToVirtual r = some v ∧
        (v, r) ∈ s._vIdTable.entries) := by
  have key : ∀ id, s._vIdTable.getNewVirtualId id = (false, id, s._vIdTable) := by
    intro id
    rcases s._vIdTable.getNewVirtualId_cases id with ⟨c, hc, _⟩ | hf
    · have hflag := s._vIdTable.getNewVirtualId_flag id s._nullId
      rw [hc, hfail] at hflag
      cases hflag
    · exact hf
  refine ⟨onCreate_of_alloc_failure s r hfail, ?_, ?_⟩
  · intro hnew
    unfold onCreate
    simp only [hr, if_false, hnew, Bool.false_eq_true, key s._nullId]
  · intro hex
    obtain ⟨v, hv⟩ := s._vIdTable.realToVirtual_isSome r hex
    refine ⟨v, ?_, hv, s._vIdTable.mem_of_realToVirtual v r hv⟩
    unfold onCreate
    simp only [hr, if_false, hex, if_true, hv, key v]

theorem onCreate_alloc_failure_witness :
    ((tinyRegistry.onCreate 5).2.onCreate 6).2 = (tinyRegistry.onCreate 5).2 ∧
    ((tinyRegistry.onCreate 5).2.onCreate 6).1 = some 0 ∧
    ((tinyRegistry.onCreate 5).2.onCreate 5).2 = (tinyRegistry.onCreate 5).2 ∧
    ∃ v, ((tinyRegistry.onCreate 5).2.onCreate 5).1 = some v ∧
      (tinyRegistry.onCreate 5).2._vIdTable.realToVirtual 5 = some v ∧
      (v, 5) ∈ (tinyRegistry.onCreate 5).2._vIdTable.entries :=
  have h6 := onCreate_alloc_failure (tinyRegistry.onCreate 5).2 6 (by decide) (by decide)
  have h5 := onCreate_alloc_failure (tinyRegistry.onCreate 5).2 5 (by decide) (by decide)
  ⟨h6.1, h6.2.1 (by decide), h5.1, h5.2.2 (by decide)⟩

/-- C14: for a non-null virtual id that is not registered, `onRemove` returns the sentinel and
leaves the whole registry state unchanged; for a registered non-null virtual id it returns
the real id the table looked it up to immediately before the call, and for every registered
virtual id the value it returns is the one `virtualToReal` returned before the call. -/
theorem onRemove_result (s : MpiVirtualization) (v : Nat) :
    (v ≠ s._nullId → s._vIdTable.virtualIdExists v = false →
      s.onRemove v = (some s._nullId, s)) ∧
    (v ≠ s._nullId → s._vIdTable.virtualIdExists v = true →
      ∃ r, s._vIdTable.virtualToReal v = some r ∧ (s.onRemove v).1 = some r) ∧
    (s._vIdTable.virtualIdExists v = true → (s.onRemove v).1 = s.virtualToReal v) := by
  have hreg : v ≠ s._nullId → s._vIdTable.virtualIdExists v = true →
      ∃ r, s._vIdTable.virtualToReal v = some r ∧ (s.onRemove v).1 = some r := by
    intro hv hex
    have hsome := hex
    rw [VirtualIdTable.virtualIdExists_eq_isSome] at hsome
    obtain ⟨r, hl⟩ := Option.isSome_iff_exists.mp hsome
    refine ⟨r, hl, ?_⟩
    unfold onRemove
    simp only [hv, if_false, hex, if_true, hl]
  refine ⟨?_, hreg, ?_⟩
  · intro hv hun
    unfold onRemove
    simp only [hv, if_false, hun, Bool.false_eq_true]
  · intro hex
    by_cases hv : v = s._nullId
    · unfold onRemove virtualToReal
      simp only [hv, if_true]
    · obtain ⟨r, hl, hres⟩ := hreg hv hex
      unfold virtualToReal
      rw [if_neg hv, hl, hres]

theorem onRemove_result_witness :
    (commRegistry.onCreate 100).2.onRemove 9 = (some 0, (commRegistry.onCreate 100).2) ∧
    (∃ r, (commRegistry.onCreate 100).2._vIdTable.virtualToReal 1 = some r ∧
      ((commRegistry.onCreate 100).2.onRemove 1).1 = some r) ∧
    ((commRegistry.onCreate 100).2.onRemove 1).1
      = (commRegistry.onCreate 100).2.virtualToReal 1 :=
  ⟨(onRemove_result (commRegistry.onCreate 100).2 9).1 (by decide) (by decide),
    (onRemove_result (commRegistry.onCreate 100).2 1).2.1 (by decide) (by decide),
    (onRemove_result (commRegistry.onCreate 100).2 1).2.2 (by decide)⟩

/-- C18: for a registered non-null virtual id `v`, the entries after `onRemove(v)` are the
entries before without those of `v` and nothing else of the registry changes; `v` is no
longer registered, and every other virtual id is registered exactly when it was before and
is translated by `virtualToReal` as before. -/
theorem onRemove_frame (s : MpiVirtualization) (v : Nat)
    (hv : v ≠ s._nullId) (hreg : s._vIdTable.virtualIdExists v = true) :
    (s.onRemove v).2 = { s with _vIdTable := s._vIdTable.erase v } ∧
    (s.onRemove v).2._vIdTable.entries = s._vIdTable.entries.filter (fun e => e.1 != v) ∧
    (s.onRemove v).2._vIdTable.virtualIdExists v = false ∧
    (∀ w, w ≠ v → (s.onRemove v).2._vIdTable.virtualIdExists w
        = s._vIdTable.virtualIdExists w) ∧
    (∀ w, w ≠ v → (s.onRemove v).2.virtualToReal w = s.virtualToReal w) ∧
    (∀ e, e ∈ (s.onRemove v).2._vIdTable.entries ↔ e ∈ s._vIdTable.entries ∧ e.1 ≠ v) := by
  have hsome := hreg
  rw [VirtualIdTable.virtualIdExists_eq_isSome] at hsome
  obtain ⟨r, hl⟩ := Option.isSome_iff_exists.mp hsome
  have hstep : s.onRemove v = (some r, { s with _vIdTable := s._vIdTable.erase v }) := by
    unfold onRemove
    simp only [hv, if_false, hreg, if_true, hl]
  rw [hstep]
  refine ⟨rfl, rfl, ?_, ?_, ?_, ?_⟩
  · simp only [VirtualIdTable.virtualIdExists_erase, decide_True, Bool.not_true,
      Bool.false_and]
  · intro w hw
    simp only [VirtualIdTable.virtualIdExists_erase, hw, decide_False, Bool.not_false,
      Bool.true_and]
  · intro w hw
    unfold virtualToReal
    simp only [VirtualIdTable.virtualToReal_erase, if_neg hw]
  · intro e
    show e ∈ s._vIdTable.entries.filter (fun e => e.1 != v) ↔ _
    simp only [List.mem_filter, bne_iff_ne, ne_eq]

theorem onRemove_frame_witness :
    ((run commRegistry [Call.onCreate 10, Call.onCreate 20, Call.onCreate 30]).onRemove
        2).2._vIdTable.entries = [(3, 30), (1, 10)] :=
  have h := onRemove_frame (run commRegistry [Call.onCreate 10, Call.onCreate 20,
    Call.onCreate 30]) 2 (by decide) (by decide)
  h.2.1.trans (by decide)

end dmtcp_mpi.MpiVirtualization

/-! ## The accessor and the categories -/

namespace dmtcp_mpi

theorem instance_of_some (h : MpiHeader) (T : Nat) (name : String) (nullId : Nat)
    (g : Statics) (reg : MpiVirtualization) (hg : g T = some reg) :
    MpiVirtualization.instance' h T name nullId g = (reg, g) := by
  unfold MpiVirtualization.instance'
  rw [hg]

theorem instance_of_none (h : MpiHeader) (T : Nat) (name : String) (nullId : Nat)
    (g : Statics) (hg : g T = none) :
    MpiVirtualization.instance' h T name nullId g
      = (MpiVirtualization.new name nullId (h.idSpace T),
          Function.update g T (some (MpiVirtualization.new name nullId (h.idSpace T)))) := by
  unfold MpiVirtualization.instance'
  rw [hg]

/-- The accessor of one handle type leaves the statics of every other handle type alone. -/
theorem instance_statics_other (h : MpiHeader) (T T1 : Nat) (name : String) (nullId : Nat)
    (g : Statics) (hT : T1 ≠ T) :
    (MpiVirtualization.instance' h T name nullId g).2 T1 = g T1 := by
  cases hg : g T with
  | none =>
    rw [instance_of_none h T name nullId g hg]
    exact Function.update_noteq hT _ g
  | some reg => rw [instance_of_some h T name nullId g reg hg]

/-- The registry the accessor returns depends on the static of its own handle type only. -/
theorem instance_congr (h : MpiHeader) (T : Nat) (name : String) (nullId : Nat)
    (g1 g2 : Statics) (hg : g1 T = g2 T) :
    (MpiVirtualization.instance' h T name nullId g1).1
      = (MpiVirtualization.instance' h T name nullId g2).1 := by
  unfold MpiVirtualization.instance'
  rw [hg]
  cases g2 T <;> rfl

theorem callOn_statics_other (h : MpiHeader) (T T1 : Nat) (name : String) (nullId : Nat)
    (op : Call) (g : Statics) (hT : T1 ≠ T) :
    (MpiVirtualization.callOn h T name nullId op g).2 T1 = g T1 := by
  show Function.update (MpiVirtualization.instance' h T name nullId g).2 T
      (some (op.apply (MpiVirtualization.instance' h T name nullId g).1).2) T1 = g T1
  rw [Function.update_noteq hT]
  exact instance_statics_other h T T1 name nullId g hT

theorem callOn_of_some (h : MpiHeader) (T : Nat) (name : String) (nullId : Nat)
    (op : Call) (g : Statics) (reg : MpiVirtualization) (hg : g T = some reg) :
    (MpiVirtualization.callOn h T name nullId op g).2 T = some (op.apply reg).2 := by
  unfold MpiVirtualization.callOn
  rw [instance_of_some h T name nullId g reg hg]
  exact Function.update_same T _ g

theorem callsOn_of_some (h : MpiHeader) (T : Nat) (g : Statics) (reg : MpiVirtualization)
    (later : List Access) (hg : g T = some reg) :
    callsOn h T g later T = some (run reg (later.map Access.call)) := by
  induction later generalizing g reg with
  | nil => exact hg
  | cons a rest ih =>
    show callsOn h T (MpiVirtualization.callOn h T a.name a.nullId a.call g).2 rest T = _
    rw [ih _ (a.call.apply reg).2 (callOn_of_some h T a.name a.nullId a.call g reg hg)]
    rfl

/-- C15: when the handle types of two categories are different types, so that their accessors
are different instantiations of the template, any `onCreate`, `onRemove` or `updateMapping`
made through the accessor of the first leaves the static of the second as it was, and the
registry obtained through the accessor of the second is the same before and after the call:
same mapping entries, same null sentinel. -/
theorem category_independence (h : MpiHeader) (c c1 : Category) (op : Call) (g : Statics)
    (hT : h.handleType c1 ≠ h.handleType c) :
    (c.call h op g).2 (h.handleType c1) = g (h.handleType c1) ∧
    (c1.list h (c.call h op g).2).1 = (c1.list h g).1 ∧
    (c1.list h (c.call h op g).2).1._vIdTable.entries = (c1.list h g).1._vIdTable.entries ∧
    (c1.list h (c.call h op g).2).1._nullId = (c1.list h g).1._nullId := by
  have h1 : (c.call h op g).2 (h.handleType c1) = g (h.handleType c1) :=
    callOn_statics_other h (h.handleType c) (h.handleType c1) c.listName (h.nullHandle c)
      op g hT
  have h2 : (c1.list h (c.call h op g).2).1 = (c1.list h g).1 :=
    instance_congr h (h.handleType c1) c1.listName (h.nullHandle c1) _ g h1
  exact ⟨h1, h2, by rw [h2], by rw [h2]⟩

theorem category_independence_witness :
    (Category.Group.list distinctHeader
        (Category.Communicator.call distinctHeader (Call.onCreate 7)
          (Category.Group.call distinctHeader (Call.onCreate 9) noStatics).2).2).1
      = (Category.Group.list distinctHeader
        (Category.Group.call distinctHeader (Call.onCreate 9) noStatics).2).1 :=
  (category_independence distinctHeader Category.Communicator Category.Group (Call.onCreate 7)
    (Category.Group.call distinctHeader (Call.onCreate 9) noStatics).2 (by decide)).2.1

/-- C19: when the static of the handle type `T` has not been constructed, the call
`instance(name, nullId)` returns a registry without entries whose null sentinel is `nullId`;
after any sequence of later uses of the accessor of `T`, with any arguments, a call
`instance(name1, nullId1)` returns the registry of the first call as the members called in
between have left it, its null sentinel still being `nullId`. -/
theorem instance_constructs_once (h : MpiHeader) (T : Nat) (name : String) (nullId : Nat)
    (g : Statics) (later : List Access) (name1 : String) (nullId1 : Nat)
    (hfirst : g T = none) :
    (MpiVirtualization.instance' h T name nullId g).1
      = MpiVirtualization.new name nullId (h.idSpace T) ∧
    (MpiVirtualization.instance' h T name nullId g).1._vIdTable.entries = [] ∧
    (MpiVirtualization.instance' h T name nullId g).1._nullId = nullId ∧
    (MpiVirtualization.instance' h T name1 nullId1
        (callsOn h T (MpiVirtualization.instance' h T name nullId g).2 later)).1
      = run (MpiVirtualization.new name nullId (h.idSpace T)) (later.map Access.call) ∧
    (MpiVirtualization.instance' h T name1 nullId1
        (callsOn h T (MpiVirtualization.instance' h T name nullId g).2 later)).1._nullId
      = nullId := by
  have h0 := instance_of_none h T name nullId g hfirst
  have hs : (MpiVirtualization.instance' h T name nullId g).2 T
      = some (MpiVirtualization.new name nullId (h.idSpace T)) := by
    rw [h0]
    exact Function.update_same T _ g
  have hl := callsOn_of_some h T _ _ later hs
  have hr := instance_of_some h T name1 nullId1 _ _ hl
  refine ⟨by rw [h0], by rw [h0]; rfl, by rw [h0]; rfl, by rw [hr], ?_⟩
  rw [hr]
  exact run_nullId _ _

theorem instance_constructs_once_witness :
    (MpiVirtualization.instance' distinctHeader 0 "MpiGroup" 7
        (callsOn distinctHeader 0
          (MpiVirtualization.instance' distinctHeader 0 "MpiComm" 0 noStatics).2
          [Access.mk "MpiComm" 0 (Call.onCreate 100),
           Access.mk "other" 5 (Call.onCreate 200)])).1
      = run (MpiVirtualization.new "MpiComm" 0 16) [Call.onCreate 100, Call.onCreate 200] :=
  (instance_constructs_once distinctHeader 0 "MpiComm" 0 noStatics
    [Access.mk "MpiComm" 0 (Call.onCreate 100), Access.mk "other" 5 (Call.onCreate 200)]
    "MpiGroup" 7 rfl).2.2.2.1

end dmtcp_mpi

/-! ## What is never stored, and creates in a row -/

namespace dmtcp_mpi

/-- The state after `updateMapping`, with the fact that the overwritten id was registered. -/
theorem updateMapping_state_registered (s : MpiVirtualization) (virt real : Nat) :
    (s.updateMapping virt real).2 = s ∨
    (real ≠ s._nullId ∧ s._vIdTable.virtualIdExists virt = true ∧
      (s.updateMapping virt real).2
        = { s with _vIdTable := s._vIdTable.updateMapping virt real }) := by
  cases hreg : s._vIdTable.virtualIdExists virt with
  | true =>
    rcases s.updateMapping_state virt real with h | ⟨hr, h⟩
    · exact Or.inl h
    · exact Or.inr ⟨hr, rfl, h⟩
  | false =>
    left
    unfold MpiVirtualization.updateMapping
    by_cases hnull : virt = s._nullId ∨ real = s._nullId
    · simp only [hnull, if_true]
    · simp only [hnull, if_false, hreg, Bool.not_false, if_true]
      cases s._vIdTable.realToVirtual real <;> rfl

/-- The state after `onCreate`, with the fact that the allocated id is not the reserved value
of the table. -/
theorem onCreate_state_base (s : MpiVirtualization) (real : Nat) :
    (s.onCreate real).2 = s ∨
    ∃ c, real ≠ s._nullId ∧ c ≠ s._vIdTable.base ∧
      (s.onCreate real).2 = { s with _vIdTable :=
          ({ s._vIdTable with next := c + 1 } : VirtualIdTable).updateMapping c real } := by
  by_cases hnull : real = s._nullId
  · left
    unfold MpiVirtualization.onCreate
    simp only [hnull, if_true]
  · cases halloc : (s._vIdTable.getNewVirtualId s._nullId).1 with
    | false => exact Or.inl (MpiVirtualization.onCreate_of_alloc_failure s real halloc)
    | true =>
      obtain ⟨c, hc, hcb, _⟩ := MpiVirtualization.onCreate_of_alloc s real hnull halloc
      exact Or.inr ⟨c, hnull, hcb, by rw [hc]⟩

/-- No call stores the sentinel as a real id, nor the reserved value of the table as a
virtual id; the reserved value itself is never changed. -/
theorem apply_stored (s : MpiVirtualization) (c : Call)
    (hinv : ∀ e ∈ s._vIdTable.entries, e.2 ≠ s._nullId ∧ e.1 ≠ s._vIdTable.base) :
    (c.apply s).2._vIdTable.base = s._vIdTable.base ∧
    ∀ e ∈ (c.apply s).2._vIdTable.entries,
      e.2 ≠ (c.apply s).2._nullId ∧ e.1 ≠ (c.apply s).2._vIdTable.base := by
  have hwrite : ∀ (t : VirtualIdTable) (v r : Nat), t.entries = s._vIdTable.entries →
      r ≠ s._nullId → v ≠ s._vIdTable.base →
      ∀ e ∈ (t.updateMapping v r).entries, e.2 ≠ s._nullId ∧ e.1 ≠ s._vIdTable.base := by
    intro t v r ht hr hv e he
    rcases List.mem_cons.mp he with h | h
    · rw [h]; exact ⟨hr, hv⟩
    · rw [ht] at h
      exact hinv e (List.mem_filter.mp h).1
  cases c with
  | onCreate real =>
    rcases onCreate_state_base s real with h | ⟨c, hr, hcb, h⟩
    · simp only [Call.apply, h]
      exact ⟨trivial, hinv⟩
    · simp only [Call.apply, h]
      exact ⟨rfl, hwrite _ c real rfl hr hcb⟩
  | onRemove virt =>
    rcases s.onRemove_state virt with h | h
    · simp only [Call.apply, h]
      exact ⟨trivial, hinv⟩
    · simp only [Call.apply, h]
      exact ⟨rfl, fun e he => hinv e (List.mem_filter.mp he).1⟩
  | updateMapping virt real =>
    rcases updateMapping_state_registered s virt real with h | ⟨hr, hreg, h⟩
    · simp only [Call.apply, h]
      exact ⟨trivial, hinv⟩
    · simp only [Call.apply, h]
      obtain ⟨e0, he0, hk⟩ := List.any_eq_true.mp hreg
      have hvb : virt ≠ s._vIdTable.base := by
        have := (hinv e0 he0).2
        rwa [beq_iff_eq.mp hk] at this
      exact ⟨rfl, hwrite _ virt real rfl hr hvb⟩

/-- In every state reached from an empty registry no entry has the sentinel as its real id
and no entry has 0, the value the table is constructed with, as its virtual id. -/
theorem run_stored (name : String) (nullId idSpace : Nat) (calls : List Call) :
    ∀ e ∈ (run (MpiVirtualization.new name nullId idSpace) calls)._vIdTable.entries,
      e.2 ≠ nullId ∧ e.1 ≠ 0 := by
  have gen : ∀ (cs : List Call) (s : MpiVirtualization),
      (∀ e ∈ s._vIdTable.entries, e.2 ≠ s._nullId ∧ e.1 ≠ s._vIdTable.base) →
      (run s cs)._vIdTable.base = s._vIdTable.base ∧
      ∀ e ∈ (run s cs)._vIdTable.entries,
        e.2 ≠ (run s cs)._nullId ∧ e.1 ≠ (run s cs)._vIdTable.base := by
    intro cs
    induction cs with
    | nil => exact fun s h => ⟨rfl, h⟩
    | cons c cs ih =>
      intro s h
      have h1 := apply_stored s c h
      have h2 := ih (c.apply s).2 h1.2
      exact ⟨h2.1.trans h1.1, h2.2⟩
  have h := gen calls (MpiVirtualization.new name nullId idSpace)
    (fun e he => by cases he)
  intro e he
  have hb : (run (MpiVirtualization.new name nullId idSpace) calls)._vIdTable.base = 0 := h.1
  have hn : (run (MpiVirtualization.new name nullId idSpace) calls)._nullId = nullId :=
    run_nullId _ _
  have := h.2 e he
  rw [hb, hn] at this
  exact this

/-- A run of `onCreate` calls is a sequence of calls. -/
theorem createAll_eq_run (s : MpiVirtualization) (rs : List Nat) :
    (createAll s rs).2 = run s (rs.map Call.onCreate) := by
  induction rs generalizing s with
  | nil => rfl
  | cons r rs ih => exact ih (s.onCreate r).2

/-- Creates in a row, each with a successful allocation: the virtual ids returned are pairwise
distinct, none was registered beforehand, the table looks the i-th of them up to the i-th
real id afterwards, and so does `virtualToReal` for each of them that is not the sentinel. -/
theorem createAll_fresh (s : MpiVirtualization) (rs : List Nat)
    (hnn : ∀ r ∈ rs, r ≠ s._nullId) (hall : allAllocate s rs = true) :
    ∃ vs : List Nat, (createAll s rs).1 = vs.map some ∧ vs.length = rs.length ∧ vs.Nodup ∧
      (∀ v ∈ vs, s._vIdTable.virtualIdExists v = false) ∧
      (∀ p ∈ vs.zip rs, (createAll s rs).2._vIdTable.virtualToReal p.1 = some p.2) ∧
      (∀ p ∈ vs.zip rs, p.1 ≠ s._nullId →
        (createAll s rs).2.virtualToReal p.1 = some p.2) := by
  have hn : ∀ (rs : List Nat) (s : MpiVirtualization),
      (createAll s rs).2._nullId = s._nullId := by
    intro rs s
    rw [createAll_eq_run, run_nullId]
  have hkeep : ∀ (rs : List Nat) (s : MpiVirtualization) (w r : Nat),
      s._vIdTable.virtualToReal w = some r →
      (createAll s rs).2._vIdTable.virtualToReal w = some r := by
    intro rs s w r hl
    rw [createAll_eq_run]
    refine run_keeps_lookup s _ w r ?_ hl
    intro c hc
    obtain ⟨x, _, hx⟩ := List.mem_map.mp hc
    rw [← hx]
    rfl
  have core : ∀ (rs : List Nat) (s : MpiVirtualization),
      (∀ r ∈ rs, r ≠ s._nullId) → allAllocate s rs = true →
      ∃ vs : List Nat, (createAll s rs).1 = vs.map some ∧ vs.length = rs.length ∧ vs.Nodup ∧
        (∀ v ∈ vs, s._vIdTable.virtualIdExists v = false) ∧
        (∀ p ∈ vs.zip rs, (createAll s rs).2._vIdTable.virtualToReal p.1 = some p.2) := by
    intro rs
    induction rs with
    | nil =>
      intro s _ _
      exact ⟨[], rfl, rfl, List.nodup_nil, fun v hv => (by cases hv),
        fun p hp => (by cases hp)⟩
    | cons r rs ih =>
      intro s hnn hall
      simp only [allAllocate, Bool.and_eq_true] at hall
      have hr : r ≠ s._nullId := hnn r (List.mem_cons_self _ _)
      obtain ⟨c, hc, _, hfresh⟩ := MpiVirtualization.onCreate_of_alloc s r hr hall.1
      have hn1 : (s.onCreate r).2._nullId = s._nullId := by rw [hc]
      have hex1 : ∀ w, (s.onCreate r).2._vIdTable.virtualIdExists w
          = (decide (w = c) || s._vIdTable.virtualIdExists w) := by
        intro w
        rw [hc]
        exact VirtualIdTable.virtualIdExists_updateMapping _ c r w
      have hl1 : (s.onCreate r).2._vIdTable.virtualToReal c = some r := by
        rw [hc]
        simp only [VirtualIdTable.virtualToReal_updateMapping, if_true]
      obtain ⟨vs, h1, h2, h3, h4, h5⟩ := ih (s.onCreate r).2
        (fun x hx => by rw [hn1]; exact hnn x (List.mem_cons_of_mem _ hx)) hall.2
      refine ⟨c :: vs, ?_, ?_, ?_, ?_, ?_⟩
      · show (s.onCreate r).1 :: (createAll (s.onCreate r).2 rs).1 = _
        rw [h1, hc]
        rfl
      · simp only [List.length_cons, h2]
      · rw [List.nodup_cons]
        refine ⟨fun hm => ?_, h3⟩
        have := h4 c hm
        rw [hex1 c] at this
        simp at this
      · intro v hv
        rcases List.mem_cons.mp hv with e | hm
        · rw [e]; exact hfresh
        · have := h4 v hm
          rw [hex1 v] at this
          simp only [Bool.or_eq_false_iff] at this
          exact this.2
      · intro p hp
        rw [List.zip_cons_cons] at hp
        rcases List.mem_cons.mp hp with e | hm
        · rw [e]
          exact hkeep rs (s.onCreate r).2 c r hl1
        · exact h5 p hm
  obtain ⟨vs, h1, h2, h3, h4, h5⟩ := core rs s hnn hall
  refine ⟨vs, h1, h2, h3, h4, h5, ?_⟩
  intro p hp hpn
  unfold MpiVirtualization.virtualToReal
  rw [hn rs s, if_neg hpn]
  exact h5 p hp

/-- C17, evaluated on the code: from the empty registry constructed with the sentinel 1,
`onCreate(5)` and `onCreate(6)` both allocate and return the distinct virtual ids 1 and 2,
and the table holds 1 -> 5 and 2 -> 6; but the first returned id is the sentinel, so
afterwards `virtualToReal(1)` returns 1 and not the first real id 5. -/
theorem sequential_creates_sentinel_lookup :
    oneNullRegistry._nullId = 1 ∧
    oneNullRegistry._vIdTable.entries = [] ∧
    allAllocate oneNullRegistry [5, 6] = true ∧
    (createAll oneNullRegistry [5, 6]).1 = [some 1, some 2] ∧
    (createAll oneNullRegistry [5, 6]).2._vIdTable.entries = [(2, 6), (1, 5)] ∧
    (createAll oneNullRegistry [5, 6]).2.virtualToReal 1 = some 1 ∧
    (createAll oneNullRegistry [5, 6]).2.virtualToReal 1 ≠ some 5 := by
  decide

end dmtcp_mpi

namespace dmtcp_mpi

/-- The other side of the hypothesis of category independence: when the handle types of two
categories are one and the same type, their accessors are one instantiation, and after a call
made through the first the accessor of the second returns the registry that call has left. -/
theorem category_shared_when_same_type (h : MpiHeader) (c c1 : Category) (op : Call)
    (g : Statics) (hT : h.handleType c1 = h.handleType c) :
    (c1.list h (c.call h op g).2).1 = (op.apply (c.list h g).1).2 := by
  have hs : (c.call h op g).2 (h.handleType c1) = some (op.apply (c.list h g).1).2 := by
    rw [hT]
    exact Function.update_same _ _ _
  show (MpiVirtualization.instance' h (h.handleType c1) c1.listName (h.nullHandle c1)
    (c.call h op g).2).1 = _
  rw [instance_of_some h _ _ _ _ _ hs]

end dmtcp_mpi
